import Mathlib

/-!
Verification development for the normalizer operator package
(airflow/providers/normalizer/operators): a shallow embedding of
utils.py (MappingElements, flatten, prepare_value, normalize),
the key-naming and DDL-scheduling logic of normalizer.py
(NormalizerOperator.__init__ / initialize) and the SQL templates of
queries.py, together with theorems about the embedded code.

Python values that can appear in a JSON-shaped document are embedded as
the inductive type JVal (None, bool, int, str, datetime.datetime
instances, list, dict).  Python floats do not occur in any of the
scenarios treated here and are omitted.  Python dicts are embedded as
association lists in insertion order; a lookup takes the value of the
last matching key, as dict(items) does for duplicate keys.  Functions
that can raise return Except String; the recursive normalizer carries an
explicit fuel argument standing for the CPython recursion limit, and
exhausting it returns the RecursionError branch.
-/

namespace Normalizer

/-- Embedded Python value (the shapes a JSON-bearing row can hold). -/
inductive JVal where
  | vnull : JVal
  | vbool : Bool → JVal
  | vint : Int → JVal
  | vstr : String → JVal
  | vdatetime : Nat → Nat → Nat → Nat → Nat → Nat → Nat → JVal
  | vlist : List JVal → JVal
  | vdict : List (String × JVal) → JVal
deriving Repr

/-- The single-quote character as a one-character string. -/
def apos : String := String.singleton (Char.ofNat 39)

/-- The backslash character as a one-character string. -/
def bslash : String := String.singleton (Char.ofNat 92)

/-- The double-quote character as a one-character string. -/
def dquo : String := String.singleton (Char.ofNat 34)

/-- Scanner for pyReplace.  The fuel starts at length + 1 and decreases on
every step while the input loses at least one character, so the fuel = 0
branch is unreachable and the function computes exactly the
left-to-right non-overlapping replacement Python str.replace performs. -/
def replaceGo (pat rep : List Char) : Nat → List Char → List Char
  | _, [] => []
  | 0, rest => rest
  | fuel+1, c :: rest =>
    if List.isPrefixOf pat (c :: rest) then
      rep ++ replaceGo pat rep fuel (List.drop pat.length (c :: rest))
    else c :: replaceGo pat rep fuel rest

/-- Python str.replace(pat, rep).  An empty pattern interleaves rep
around every character, as Python does. -/
def pyReplace (s pat rep : String) : String :=
  if pat.isEmpty then String.mk (rep.data ++ s.data.flatMap (fun c => c :: rep.data))
  else String.mk (replaceGo pat.data rep.data (s.length + 1) s.data)

/-- Python substring membership test: pat in s. -/
def pyInGo (pat : List Char) : List Char → Bool
  | [] => List.isPrefixOf pat []
  | c :: rest => List.isPrefixOf pat (c :: rest) || pyInGo pat rest

/-- Python substring membership test on strings. -/
def pyIn (pat s : String) : Bool := pyInGo pat.data s.data

/-- Scanner for pySplit, fueled the same way as replaceGo. -/
def splitGo (sep : List Char) : Nat → List Char → List (List Char)
  | _, [] => [[]]
  | 0, rest => [rest]
  | fuel+1, c :: rest =>
    if List.isPrefixOf sep (c :: rest) then
      [] :: splitGo sep fuel (List.drop sep.length (c :: rest))
    else match splitGo sep fuel rest with
         | grp :: grps => (c :: grp) :: grps
         | [] => [[c]]

/-- Python str.split(sep) for a non-empty separator (every use in the
source passes a literal non-empty separator; Python raises ValueError on
an empty one, a case no caller reaches). -/
def pySplit (s sep : String) : List String :=
  if sep.isEmpty then [s]
  else (splitGo sep.data (s.length + 1) s.data).map String.mk

/-- Python str.lower restricted to ASCII, as used on SQL type names. -/
def pyToLower (s : String) : String := String.mk (s.data.map Char.toLower)

/-- Python truthiness of an embedded value. -/
def pyTruthy : JVal → Bool
  | JVal.vnull => false
  | JVal.vbool b => b
  | JVal.vint n => n != 0
  | JVal.vstr s => s != ""
  | JVal.vdatetime _ _ _ _ _ _ _ => true
  | JVal.vlist xs => !xs.isEmpty
  | JVal.vdict kvs => !kvs.isEmpty

/-- Zero-padded decimal rendering used by strftime fields. -/
def padZ (w : Nat) (n : Nat) : String :=
  let s := toString n
  String.mk (List.replicate (w - s.length) (Char.ofNat 48)) ++ s

/-- strftime with format YYYY-MM-DD HH:MM:SS. -/
def strftimeSeconds (y mo d h mi s : Nat) : String :=
  padZ 4 y ++ "-" ++ padZ 2 mo ++ "-" ++ padZ 2 d ++ " " ++
  padZ 2 h ++ ":" ++ padZ 2 mi ++ ":" ++ padZ 2 s

/-- strftime with format YYYY-MM-DD HH:MM:SS.ffffff. -/
def strftimeMicro (y mo d h mi s us : Nat) : String :=
  strftimeSeconds y mo d h mi s ++ "." ++ padZ 6 us

/-- Python str(datetime): seconds form, with microseconds appended only
when they are non-zero. -/
def strOfDatetime (y mo d h mi s us : Nat) : String :=
  if us == 0 then strftimeSeconds y mo d h mi s else strftimeMicro y mo d h mi s us

mutual

/-- Python str() of an embedded value (containers render their elements
with repr, which is why pyRepr exists alongside). -/
def pyStr : JVal → String
  | JVal.vnull => "None"
  | JVal.vbool b => if b then "True" else "False"
  | JVal.vint n => toString n
  | JVal.vstr s => s
  | JVal.vdatetime y mo d h mi s us => strOfDatetime y mo d h mi s us
  | JVal.vlist xs => "[" ++ String.intercalate ", " (pyReprList xs) ++ "]"
  | JVal.vdict kvs => "\x7b" ++ String.intercalate ", " (pyReprKVs kvs) ++ "\x7d"

/-- Python repr() of an embedded value, for the plain strings that occur
here (no escape-needing characters inside container renderings). -/
def pyRepr : JVal → String
  | JVal.vnull => "None"
  | JVal.vbool b => if b then "True" else "False"
  | JVal.vint n => toString n
  | JVal.vstr s => apos ++ s ++ apos
  | JVal.vdatetime y mo d h mi s us =>
      "datetime.datetime(" ++
      String.intercalate ", " ([y, mo, d, h, mi, s, us].map (fun n => toString n)) ++ ")"
  | JVal.vlist xs => "[" ++ String.intercalate ", " (pyReprList xs) ++ "]"
  | JVal.vdict kvs => "\x7b" ++ String.intercalate ", " (pyReprKVs kvs) ++ "\x7d"

/-- repr of each element of a list. -/
def pyReprList : List JVal → List String
  | [] => []
  | x :: xs => pyRepr x :: pyReprList xs

/-- repr of each key-value pair of a dict. -/
def pyReprKVs : List (String × JVal) → List String
  | [] => []
  | (k, v) :: rest => (apos ++ k ++ apos ++ ": " ++ pyRepr v) :: pyReprKVs rest

end

/-- Hexadecimal digit for JSON control-character escapes. -/
def hexDigit (n : Nat) : Char :=
  if n < 10 then Char.ofNat (48 + n) else Char.ofNat (87 + n)

/-- JSON escaping of one character (ensure_ascii=False: only the
mandatory escapes). -/
def jsonEscapeChar (c : Char) : List Char :=
  if c = Char.ofNat 34 then [Char.ofNat 92, Char.ofNat 34]
  else if c = Char.ofNat 92 then [Char.ofNat 92, Char.ofNat 92]
  else if c = Char.ofNat 10 then [Char.ofNat 92, Char.ofNat 110]
  else if c = Char.ofNat 13 then [Char.ofNat 92, Char.ofNat 114]
  else if c = Char.ofNat 9 then [Char.ofNat 92, Char.ofNat 116]
  else if c.toNat < 32 then
    [Char.ofNat 92, Char.ofNat 117, Char.ofNat 48, Char.ofNat 48,
     hexDigit (c.toNat / 16), hexDigit (c.toNat % 16)]
  else [c]

/-- JSON escaping of a string body. -/
def jsonEscape (s : String) : String := String.mk (s.data.flatMap jsonEscapeChar)

/-- Error raised by json.dumps on a datetime instance. -/
def errJsonDatetime : String := "TypeError: Object of type datetime is not JSON serializable"

mutual

/-- Embedding of json.dumps(value, ensure_ascii=False) with the
separators Python uses by default. -/
def jsonDumps : JVal → Except String String
  | JVal.vnull => Except.ok "null"
  | JVal.vbool b => Except.ok (if b then "true" else "false")
  | JVal.vint n => Except.ok (toString n)
  | JVal.vstr s => Except.ok (dquo ++ jsonEscape s ++ dquo)
  | JVal.vdatetime _ _ _ _ _ _ _ => Except.error errJsonDatetime
  | JVal.vlist xs => do
      Except.ok ("[" ++ String.intercalate ", " (← jsonDumpsList xs) ++ "]")
  | JVal.vdict kvs => do
      Except.ok ("\x7b" ++ String.intercalate ", " (← jsonDumpsKVs kvs) ++ "\x7d")

/-- json.dumps of every element of a list. -/
def jsonDumpsList : List JVal → Except String (List String)
  | [] => Except.ok []
  | x :: xs => do Except.ok ((← jsonDumps x) :: (← jsonDumpsList xs))

/-- json.dumps of every key-value pair of a dict. -/
def jsonDumpsKVs : List (String × JVal) → Except String (List String)
  | [] => Except.ok []
  | (k, v) :: rest => do
      Except.ok ((dquo ++ jsonEscape k ++ dquo ++ ": " ++ (← jsonDumps v)) :: (← jsonDumpsKVs rest))

end

/-- Error raised at utils.py line 76: isinstance(value, datetime) passes
the imported datetime module, not a class, so CPython raises whenever the
test is reached (declared type datetime and truthy value). -/
def errIsinstanceModule : String :=
  "TypeError: isinstance() arg 2 must be a type, a tuple of types, or a union, not module"

/-- Error raised at utils.py line 74 when a non-datetime value reaches
value.strftime. -/
def errNoStrftime : String := "AttributeError: object has no attribute strftime"

/-- Embedding of prepare_value (utils.py lines 72-98).  Each Python if
statement becomes one sequential rewriting step of the running value; the
returned value is whatever object the Python function returns (a string
in every claim-relevant case, but a datetime instance can fall through
unchanged exactly as in the source). -/
def prepare_value (value : JVal) (cast : String) : Except String JVal := do
  let value ←
    if (cast == "timestamp" || cast == "datetime64") && pyTruthy value then
      match value with
      | JVal.vdatetime y mo d h mi s us =>
          Except.ok (JVal.vstr (strftimeMicro y mo d h mi s us))
      | _ => Except.error errNoStrftime
    else Except.ok value
  let value ←
    if cast == "datetime" && pyTruthy value then
      Except.error errIsinstanceModule
    else Except.ok value
  let value := if cast == "date" && pyTruthy value then JVal.vstr (pyStr value) else value
  let value ←
    match value with
    | JVal.vlist _ => do Except.ok (JVal.vstr (← jsonDumps value))
    | JVal.vdict _ => do Except.ok (JVal.vstr (← jsonDumps value))
    | _ => Except.ok value
  let value :=
    match value with
    | JVal.vbool b => JVal.vstr (pyToLower (pyStr (JVal.vbool b)))
    | _ => value
  let value :=
    match value with
    | JVal.vstr s =>
        JVal.vstr (apos ++ pyReplace (pyReplace s bslash (bslash ++ bslash)) apos (apos ++ apos) ++ apos)
    | _ => value
  let value :=
    match value with
    | JVal.vint n => JVal.vstr (toString n)
    | _ => value
  let value :=
    match value with
    | JVal.vnull => JVal.vstr "NULL"
    | _ => value
  Except.ok value

/-- Embedding of MappingElements (utils.py lines 5-49).  A translation
entry (one destination-table mapping of the YAML spec) is a dict from a
qualified destination name to a dict from source field key to a dict
from destination column name to destination type; dicts are association
lists in insertion order. -/
structure MappingElements where
  destination : String
  table : String
  mapping : List (String × List (String × String))
  original : List String
  fieldset : List (List (String × String))
  fields : List String
  types : List String
  definition : List String
  uniques : List (List (String × String))
  has_uniques : Bool
deriving Repr

/-- Embedding of MappingElements.__init__.  list(translation.keys())[0]
raises IndexError on an empty dict; with at least one entry the first
key is taken and translation[destination] is that first entry's value
(dict keys are unique).  No other cardinality is checked: extra
destination keys are ignored and a field entry with several
(column, type) pairs has its keys and values concatenated by the
String.join calls, exactly as the joins at lines 24-31 do. -/
def MappingElements.build (translation : List (String × List (String × List (String × String)))) :
    Except String MappingElements :=
  match translation with
  | [] => Except.error "IndexError: list index out of range"
  | (destination, mapping) :: _ =>
    let table := (pySplit destination ".").getLastD ""
    let original := mapping.map Prod.fst
    let fieldset := mapping.map Prod.snd
    let fields := fieldset.map (fun x => String.join (x.map Prod.fst))
    let types := fieldset.map (fun x => pyToLower (String.join (x.map Prod.snd)))
    let definition := fieldset.map (fun x => String.join (x.map Prod.fst) ++ " " ++ String.join (x.map Prod.snd))
    let has_uniques := pyIn "*" (String.join (mapping.map Prod.fst))
    let uniques := (mapping.filter (fun p => pyIn "*" p.1)).map Prod.snd
    Except.ok
      { destination := destination
        table := table
        mapping := mapping
        original := original
        fieldset := fieldset
        fields := fields
        types := types
        definition := definition
        uniques := uniques
        has_uniques := has_uniques }

mutual

/-- Embedding of flatten (utils.py lines 60-69) over the items of a
dict: nested dicts recurse with the delimiter-joined key, all other
values (lists included) are kept as leaves. -/
def flatten : List (String × JVal) → String → String → List (String × JVal)
  | [], _, _ => []
  | (key, value) :: rest, parent_key, delim =>
    let child_key := if parent_key != "" then parent_key ++ delim ++ key else key
    flattenValue value child_key delim ++ flatten rest parent_key delim

/-- One item of flatten: dict values recurse, anything else is a leaf. -/
def flattenValue : JVal → String → String → List (String × JVal)
  | JVal.vdict kvs, child_key, delim => flatten kvs child_key delim
  | v, child_key, _ => [(child_key, v)]

end

/-- dict(items).get(k): the value of the last occurrence of k, None
(absent) otherwise. -/
def pyDictGet (items : List (String × JVal)) (k : String) : Option JVal :=
  (items.reverse.find? (fun p => p.1 == k)).map Prod.snd

/-- Buffers: table path to the list of already rendered row literals. -/
abbrev Buffers := List (String × List String)

/-- Surrogate-id counters: table path to last assigned id. -/
abbrev Ids := List (String × Int)

/-- The per-table mapping descriptors, keyed by table path. -/
abbrev Mappings := List (String × MappingElements)

/-- Python dict lookup on an association list with unique keys. -/
def assocGet {α : Type} (l : List (String × α)) (k : String) : Option α :=
  (l.find? (fun p => p.1 == k)).map Prod.snd

/-- Python dict assignment: update in place, or append a new key. -/
def assocSet {α : Type} (l : List (String × α)) (k : String) (v : α) : List (String × α) :=
  if l.any (fun p => p.1 == k) then l.map (fun p => if p.1 == k then (k, v) else p)
  else l ++ [(k, v)]

/-- KeyError message shared by the dict lookups of normalize. -/
def errKey : String := "KeyError"

/-- Lookup that raises KeyError like a Python subscript. -/
def keyGet {α : Type} : Option α → Except String α
  | some a => Except.ok a
  | none => Except.error errKey

/-- Error of a str.join whose operand list holds a non-string. -/
def errJoinNonStr : String := "TypeError: sequence item: expected str instance"

/-- One operand of str.join: must be a Python str. -/
def strOfVStr : JVal → Except String String
  | JVal.vstr s => Except.ok s
  | _ => Except.error errJoinNonStr

/-- All operands of str.join, in order. -/
def vstrAll : List JVal → Except String (List String)
  | [] => Except.ok []
  | v :: rest => do Except.ok ((← strOfVStr v) :: (← vstrAll rest))

/-- Python sep.join(items): every item must be a str. -/
def pyJoin (sep : String) (items : List JVal) : Except String String := do
  Except.ok (String.intercalate sep (← vstrAll items))

/-- Error of iterating .items() on a non-dict document. -/
def errItems : String := "AttributeError: object has no attribute items"

/-- Error of buffers[parent_key].append when the key is absent (never
reached from normalize, which inserts the key first, but kept for
fidelity of the subscript). -/
def bufAppend (buffers : Buffers) (k : String) (row : String) : Except String Buffers :=
  match assocGet buffers k with
  | some rows => Except.ok (assocSet buffers k (rows ++ [row]))
  | none => Except.error errKey

/-- Error standing for the CPython recursion limit. -/
def errRecursion : String := "RecursionError: maximum recursion depth exceeded"

/-- IndexError of mapping.original[i] / mapping.types[i] when those lists
are shorter than mapping.fields. -/
def errIndex : String := "IndexError: list index out of range"

/-- Nested table keys visible from parent_key (utils.py line 106):
every mapping key that contains parent_key as a substring and differs
from it, with the leading parent_key plus dot stripped. -/
def nestedKeysFor (mappings : Mappings) (parent_key : String) : List String :=
  (mappings.filter (fun p => pyIn parent_key p.1 && p.1 != parent_key)).map
    (fun p => pyReplace p.1 (parent_key ++ ".") "")

/-- Field loop of normalize (utils.py lines 116-127): walks
mapping.fields with mapping.original and mapping.types positionally,
prepares each value, and recurses through the supplied recurse function
into any truthy list value whose destination field names a declared
child table.  Returns the updated buffers and ids together with the
prepared values in field order. -/
def normalizeFields (recurse : List JVal → Buffers → Ids → String → Int → Int → Except String (Buffers × Ids))
    (flat_document : List (String × JVal)) (nested_keys : List String) (parent_key : String) (id : Int) :
    List String → List String → List String → Buffers → Ids →
    Except String (Buffers × Ids × List JVal)
  | [], _, _, buffers, ids => Except.ok (buffers, ids, [])
  | _ :: _, [], _, _, _ => Except.error errIndex
  | _ :: _, _, [], _, _ => Except.error errIndex
  | key :: fields, origin :: originals, cast :: casts, buffers, ids => do
    let valueOpt := pyDictGet flat_document origin
    let value := valueOpt.getD JVal.vnull
    let prepared ← prepare_value value cast
    let (buffers, ids) ←
      (match valueOpt with
       | some (JVal.vlist xs) =>
         if !xs.isEmpty && nested_keys.contains key then
           let child_key := parent_key ++ "." ++ key
           let child_id := (assocGet ids child_key).getD 0
           recurse xs buffers ids child_key id child_id
         else Except.ok (buffers, ids)
       | _ => Except.ok (buffers, ids))
    let (buffers, ids, values) ←
      normalizeFields recurse flat_document nested_keys parent_key id fields originals casts buffers ids
    Except.ok (buffers, ids, prepared :: values)

/-- Document loop of normalize (utils.py lines 111-132): flatten each
document, advance the counter, prepare the fields (recursing into child
tables), then render the row literal with the optional foreign key and
the assigned id prepended and append it to the parent buffer. -/
def normalizeLoop (recurse : List JVal → Buffers → Ids → String → Int → Int → Except String (Buffers × Ids))
    (mapping : MappingElements) (nested_keys : List String) (parent_key : String) (fk : Int) (delim : String) :
    List JVal → Buffers → Ids → Int → Except String (Buffers × Ids × Int)
  | [], buffers, ids, id => Except.ok (buffers, ids, id)
  | document :: rest, buffers, ids, id => do
    let kvs ← (match document with
      | JVal.vdict kvs => Except.ok kvs
      | _ => Except.error errItems)
    let flat_document := flatten kvs "" delim
    let id := id + 1
    let (buffers, ids, values) ←
      normalizeFields recurse flat_document nested_keys parent_key id
        mapping.fields mapping.original mapping.types buffers ids
    let foreign_key : List JVal := if fk != 0 then [JVal.vstr (toString fk)] else []
    let joined ← pyJoin ", " (foreign_key ++ [JVal.vstr (toString id)] ++ values)
    let buffers ← bufAppend buffers parent_key ("(" ++ joined ++ ")")
    normalizeLoop recurse mapping nested_keys parent_key fk delim rest buffers ids id

/-- Embedding of normalize (utils.py lines 101-134).  The fuel stands
for the CPython recursion limit: each nested child invocation consumes
one unit, and a recursive call keeps the Python defaults delim="__" and
stringify_values=True exactly as the source call at line 127 does (the
stringify_values parameter is accepted and unused, as in the source). -/
def normalize : Nat → List JVal → Buffers → Ids → Mappings → String → Int → Int → String → Bool →
    Except String (Buffers × Ids)
  | 0, _, _, _, _, _, _, _, _, _ => Except.error errRecursion
  | fuel+1, documents, buffers, ids, mappings, parent_key, fk, id0, delim, _stringify_values => do
    let buffers := if (assocGet buffers parent_key).isNone then assocSet buffers parent_key [] else buffers
    let nested_keys := nestedKeysFor mappings parent_key
    let mapping ← keyGet (assocGet mappings parent_key)
    let id ← if id0 == 0 then keyGet (assocGet ids parent_key) else Except.ok id0
    let (buffers, ids, id) ←
      normalizeLoop (fun docs b i ck f cid => normalize fuel docs b i mappings ck f cid "__" true)
        mapping nested_keys parent_key fk delim documents buffers ids id
    Except.ok (buffers, assocSet ids parent_key id)

/-- Python x or default for an optional boolean argument, as the
constructor of NormalizerOperator applies it (normalizer.py lines
110-116): a falsy supplied value falls back to the default. -/
def pyOrBool (x : Option Bool) (dflt : Bool) : Bool :=
  match x with
  | some true => true
  | _ => dflt

/-- Python x or default for an optional string argument. -/
def pyOrStr (x : Option String) (dflt : String) : String :=
  match x with
  | some s => if s != "" then s else dflt
  | none => dflt

/-- Python x or default for an optional integer argument. -/
def pyOrInt (x : Option Int) (dflt : Int) : Int :=
  match x with
  | some v => if v != 0 then v else dflt
  | none => dflt

/-- normalizer.py line 115: self.primary_key_short = primary_key_short or True. -/
def operatorPrimaryKeyShort (primary_key_short : Option Bool) : Bool :=
  pyOrBool primary_key_short true

/-- normalizer.py line 113: self.primary_key_name = primary_key_name or "id". -/
def operatorPrimaryKeyName (primary_key_name : Option String) : String :=
  pyOrStr primary_key_name "id"

/-- normalizer.py line 116: self.primary_key_delim = primary_key_delim or "__". -/
def operatorPrimaryKeyDelim (primary_key_delim : Option String) : String :=
  pyOrStr primary_key_delim "__"

/-- Relation naming of NormalizerOperator.initialize (normalizer.py
lines 174 and 184-197) for one mapping key of the root group: the
returned pair is (foreign key column or none, primary key column). -/
def relationFor (mappings : Mappings) (root : String) (short : Bool)
    (primary_key_name delim : String) (key : String) : Except String (Option String × String) := do
  let table := (pySplit root ".").getLastD ""
  let parts := pySplit (pyReplace key root table) "."
  let parent_key := pyReplace (String.intercalate "." parts.dropLast) table root
  let parent ←
    if parent_key != "" then do
      Except.ok (some (← keyGet (assocGet mappings parent_key)).destination)
    else Except.ok none
  let thisLeaf := parts.getLastD ""
  let pk := if short then primary_key_name else thisLeaf ++ delim ++ primary_key_name
  let fk := parent.map (fun p => p ++ delim ++ primary_key_name)
  Except.ok (fk, pk)

/-- queries.py lines 1-3. -/
def DROP_TABLE_QUERY : String := "\n    DROP TABLE IF EXISTS \x7btable\x7d\n"

/-- queries.py lines 6-10. -/
def CREATE_TABLE_QUERY : String :=
  "\n    CREATE TABLE IF NOT EXISTS \x7btable\x7d (\n        \x7bdefinition\x7d\n    )\n"

/-- str.format of the table placeholder. -/
def formatTable (template tbl : String) : String := pyReplace template "\x7btable\x7d" tbl

/-- str.format of the table and definition placeholders. -/
def formatTableDefinition (template tbl definition : String) : String :=
  pyReplace (pyReplace template "\x7btable\x7d" tbl) "\x7bdefinition\x7d" definition

/-- DDL scheduling of NormalizerOperator.initialize (normalizer.py lines
207-225) over the tables of one root group, each given as (destination,
definition): the single queries list handed to destination_hook.run in
one batch at line 225, under the default templates. -/
def initializeQueries (incremental : Bool) (tables : List (String × String)) : List String :=
  tables.foldl
    (fun queries td =>
      queries ++ (if incremental then [] else [formatTable DROP_TABLE_QUERY td.1]) ++
        [formatTableDefinition CREATE_TABLE_QUERY td.1 td.2])
    []

/-- Surrogate-counter seeding of NormalizerOperator.initialize
(normalizer.py lines 207-217) for one table.  The probe argument is the
outcome of destination_hook.get_first(select_max_query)[0]: an error
covers any raise (missing table included), an ok none covers a NULL max.
In incremental mode a raising probe is caught, logged as a warning and
the counter seeded at 0 (the except branch at lines 213-215); otherwise
the counter is latest_id or 0.  Full-refresh mode always seeds 0. -/
def initializeTableId (incremental : Bool) (probe : Except String (Option Int)) :
    Except String Int :=
  if incremental then
    match probe with
    | Except.ok latest => Except.ok (pyOrInt latest 0)
    | Except.error _ => Except.ok 0
  else Except.ok 0

/-- Row literal produced at utils.py lines 130-132 for one document:
the optional foreign key, then the assigned id, then the prepared field
values, comma-joined and parenthesised. -/
def rowLiteral (fk id : Int) (vals : List String) : String :=
  "(" ++ String.intercalate ", " ((if fk != 0 then [toString fk] else []) ++ [toString id] ++ vals) ++ ")"

/-- Row literals of consecutive documents: the k-th row carries id
id + k + 1, so the ids form the gap-free sequence id+1, id+2, ... -/
def rowsFrom (fk : Int) (id : Int) : List (List String) → List String
  | [] => []
  | vals :: rest => rowLiteral fk (id + 1) vals :: rowsFrom fk (id + 1) rest

/-- Mapping spec entry of the two-level scenario, root table. -/
def rootTranslation : List (String × List (String × List (String × String))) :=
  [("staging.root", [("children", [("children", "varchar")])])]

/-- Mapping spec entry of the two-level scenario, child table. -/
def childTranslation : List (String × List (String × List (String × String))) :=
  [("staging.root__children", [("x", [("x", "int")])])]

/-- MappingElements of the root table of the two-level scenario, as
MappingElements.build produces it from rootTranslation. -/
def rootElems : MappingElements :=
  { destination := "staging.root", table := "root"
    mapping := [("children", [("children", "varchar")])]
    original := ["children"], fieldset := [[("children", "varchar")]]
    fields := ["children"], types := ["varchar"]
    definition := ["children varchar"], uniques := [], has_uniques := false }

/-- MappingElements of the child table of the two-level scenario, as
MappingElements.build produces it from childTranslation. -/
def childElems : MappingElements :=
  { destination := "staging.root__children", table := "root__children"
    mapping := [("x", [("x", "int")])]
    original := ["x"], fieldset := [[("x", "int")]]
    fields := ["x"], types := ["int"]
    definition := ["x int"], uniques := [], has_uniques := false }

/-- Two-level mapping group root -> root.children, keyed as the
operator builds it. -/
def famMappings : Mappings := [("root", rootElems), ("root.children", childElems)]

/-- Child document holding one int field. -/
def famChildDoc (c : Int) : JVal := JVal.vdict [("x", JVal.vint c)]

/-- Source document holding a children array of int-field documents. -/
def famParentDoc (cs : List Int) : JVal :=
  JVal.vdict [("children", JVal.vlist (cs.map famChildDoc))]

/-- The three source documents of the end-to-end scenario, each with a
2-element children array. -/
def threeDocs : List JVal := [famParentDoc [10, 20], famParentDoc [30, 40], famParentDoc [50, 60]]

/-- json.dumps rendering of one child document. -/
def famJsonItem (c : Int) : String := "\x7b" ++ dquo ++ "x" ++ dquo ++ ": " ++ toString c ++ "\x7d"

/-- json.dumps rendering of a children array. -/
def famJson (cs : List Int) : String := "[" ++ String.intercalate ", " (cs.map famJsonItem) ++ "]"

/-- Prepared (escaped and quoted) literal of a children array in a
parent row. -/
def famParentVal (cs : List Int) : String :=
  apos ++ pyReplace (pyReplace (famJson cs) bslash (bslash ++ bslash)) apos (apos ++ apos) ++ apos

/-- Parent rows of the two-level scenario from a given last-used id. -/
def famParentRows (id : Int) : List (List Int) → List String
  | [] => []
  | cs :: rest => rowLiteral 0 (id + 1) [famParentVal cs] :: famParentRows (id + 1) rest

/-- Child rows generated for one parent row: every row carries the
parent id f as its foreign key. -/
def famChildBlock (f cid : Int) : List Int → List String
  | [] => []
  | c :: rest => rowLiteral f (cid + 1) [toString c] :: famChildBlock f (cid + 1) rest

/-- Child rows of consecutive parent documents: the block of parent k
carries foreign key pid + k + 1 while child ids keep counting. -/
def famChildRows (pid cid : Int) : List (List Int) → List String
  | [] => []
  | cs :: rest => famChildBlock (pid + 1) cid cs ++ famChildRows (pid + 1) (cid + cs.length) rest

/-- Total number of child rows of the scenario. -/
def famTotal : List (List Int) → Int
  | [] => 0
  | cs :: rest => cs.length + famTotal rest

/-- Mapping spec entry whose only field key carries the uniqueness
marker: source key UserId* mapped to column user_id of type int. -/
def uniqueTranslation : List (String × List (String × List (String × String))) :=
  [("s.t", [("UserId*", [("user_id", "int")])])]

/-- MappingElements of uniqueTranslation, as MappingElements.build
produces it. -/
def uniqueElems : MappingElements :=
  { destination := "s.t", table := "t"
    mapping := [("UserId*", [("user_id", "int")])]
    original := ["UserId*"], fieldset := [[("user_id", "int")]]
    fields := ["user_id"], types := ["int"]
    definition := ["user_id int"], uniques := [[("user_id", "int")]], has_uniques := true }

/-- Single-table mapping group for the uniqueness-marker scenario. -/
def uniqueMappings : Mappings := [("t", uniqueElems)]

/-- Translation dict with two destination keys (not exactly one). -/
def twoKeyTranslation : List (String × List (String × List (String × String))) :=
  [("a.t", [("f", [("c", "int")])]), ("b.u", [("g", [("d", "text")])])]

/-- MappingElements silently built from twoKeyTranslation: the first
destination key is used, the second ignored. -/
def twoKeyElems : MappingElements :=
  { destination := "a.t", table := "t"
    mapping := [("f", [("c", "int")])]
    original := ["f"], fieldset := [[("c", "int")]]
    fields := ["c"], types := ["int"]
    definition := ["c int"], uniques := [], has_uniques := false }

/-- Translation dict whose single field entry has two (column, type)
pairs (not exactly one). -/
def multiPairTranslation : List (String × List (String × List (String × String))) :=
  [("a.t", [("f", [("c", "int"), ("d", "Text")])])]

/-- MappingElements silently built from multiPairTranslation: column
names and types are concatenated by the String.join calls. -/
def multiPairElems : MappingElements :=
  { destination := "a.t", table := "t"
    mapping := [("f", [("c", "int"), ("d", "Text")])]
    original := ["f"], fieldset := [[("c", "int"), ("d", "Text")]]
    fields := ["cd"], types := ["inttext"]
    definition := ["cd intText"], uniques := [], has_uniques := false }

/-- Mapping group used by the key-naming theorems: a root and its child,
keyed by table path as the operator builds them. -/
def keyedMappings : Mappings := [("schema.root", rootElems), ("schema.root.children", childElems)]

/-- C3: prepare_value with declared type datetime and a plain string
does not pass the string through: the isinstance test at utils.py line
76 receives the imported datetime module instead of a class, so CPython
raises TypeError for every truthy value, the quoted pass-through the
spec prescribes included.  The code, not the claim, is at fault. -/
theorem c3_datetime_cast_raises_on_string :
    prepare_value (JVal.vstr "2023-01-16") "datetime" = Except.error errIsinstanceModule ∧
    prepare_value (JVal.vstr "2023-01-16") "datetime" ≠
      Except.ok (JVal.vstr (apos ++ "2023-01-16" ++ apos)) := by
  refine ⟨rfl, ?_⟩
  intro h
  rw [show prepare_value (JVal.vstr "2023-01-16") "datetime" = Except.error errIsinstanceModule
    from rfl] at h
  exact absurd h (by simp)

/-- C4 counterexample: prepare_value(True, "boolean") is not the bare
word true; the boolean rule rewrites the value to the string true and
the textual rule then quotes it. -/
theorem c4_boolean_counterexample :
    prepare_value (JVal.vbool true) "boolean" ≠ Except.ok (JVal.vstr "true") := by
  intro h
  rw [show prepare_value (JVal.vbool true) "boolean"
      = Except.ok (JVal.vstr (apos ++ "true" ++ apos)) from rfl] at h
  have h2 : (apos ++ "true" ++ apos) = "true" := by
    injection h with h1
    injection h1
  exact absurd h2 (by decide)

/-- C4 amended: prepare_value renders a boolean as the lowercase word
wrapped in single quotes, because after the boolean rule turns the value
into a string the generic textual rule also fires and quotes it. -/
theorem c4_boolean_quoted :
    prepare_value (JVal.vbool true) "boolean" = Except.ok (JVal.vstr (apos ++ "true" ++ apos)) ∧
    prepare_value (JVal.vbool false) "boolean" = Except.ok (JVal.vstr (apos ++ "false" ++ apos)) :=
  ⟨rfl, rfl⟩

/-- C5 counterexample: a table entry with two destination keys and a
field entry with two (column, type) pairs are both accepted without any
configuration error; the constructor silently defaults instead of
failing. -/
theorem c5_cardinality_counterexample :
    MappingElements.build twoKeyTranslation = Except.ok twoKeyElems ∧
    MappingElements.build multiPairTranslation = Except.ok multiPairElems :=
  ⟨rfl, rfl⟩

/-- C5 amended: only an empty table entry fails (IndexError from
list(translation.keys())[0], before any database I/O); a table entry
with several destination keys silently uses the first one, and a field
entry with several (column, type) pairs silently concatenates the
column names and the types. -/
theorem c5_cardinality_amended :
    MappingElements.build ([] : List (String × List (String × List (String × String))))
      = Except.error "IndexError: list index out of range" ∧
    (MappingElements.build twoKeyTranslation = Except.ok twoKeyElems ∧
      twoKeyElems.destination = "a.t") ∧
    (MappingElements.build multiPairTranslation = Except.ok multiPairElems ∧
      multiPairElems.fields = ["cd"] ∧ multiPairElems.types = ["inttext"]) :=
  ⟨rfl, ⟨rfl, rfl⟩, rfl, rfl, rfl⟩

/-- C6: the constructor line primary_key_short = primary_key_short or
True coerces an explicit False to True, so the short-key branch of
initialize cannot be disabled: with primary_key_short=False the primary
key column is still named id, not children__id as the claim (and the
dead else branch at normalizer.py line 190) prescribe.  The foreign-key
part of the claim does hold: it is always the parent destination table
plus delimiter plus the primary-key name. -/
theorem c6_short_key_mode_cannot_be_disabled :
    operatorPrimaryKeyShort (some false) = true ∧
    relationFor keyedMappings "schema.root" (operatorPrimaryKeyShort (some false)) "id" "__"
        "schema.root.children"
      = Except.ok (some "staging.root__id", "id") ∧
    relationFor keyedMappings "schema.root" false "id" "__" "schema.root.children"
      = Except.ok (some "staging.root__id", "children__id") ∧
    relationFor keyedMappings "schema.root" (operatorPrimaryKeyShort none) "id" "__" "schema.root"
      = Except.ok (none, "id") :=
  ⟨rfl, rfl, rfl, rfl⟩

/-- C7: in incremental mode a raising destination probe is recovered
locally: the counter is seeded at 0 and initialize returns normally for
every probe outcome (no exception escapes the seeding step). -/
theorem c7_probe_failure_recovered :
    ∀ (e : String) (probe : Except String (Option Int)),
      initializeTableId true (Except.error e) = Except.ok 0 ∧
      ∃ n : Int, initializeTableId true probe = Except.ok n := by
  intro e probe
  refine ⟨rfl, ?_⟩
  cases probe with
  | ok latest => exact ⟨pyOrInt latest 0, rfl⟩
  | error _ => exact ⟨0, rfl⟩

/-- Closed form of the foldl accumulating the DDL batch. -/
theorem initializeQueries_eq_append :
    ∀ (incremental : Bool) (tables : List (String × String)) (acc : List String),
      tables.foldl
        (fun queries td =>
          queries ++ (if incremental then [] else [formatTable DROP_TABLE_QUERY td.1]) ++
            [formatTableDefinition CREATE_TABLE_QUERY td.1 td.2]) acc
      = acc ++ tables.flatMap
          (fun td => (if incremental then [] else [formatTable DROP_TABLE_QUERY td.1]) ++
            [formatTableDefinition CREATE_TABLE_QUERY td.1 td.2]) := by
  intro incremental tables
  induction tables with
  | nil => intro acc; simp
  | cons hd tl ih =>
    intro acc
    rw [List.foldl_cons, ih]
    simp [List.flatMap_cons, List.append_assoc]

/-- C8: full-refresh mode schedules, for every table of the root group
in order, a DROP TABLE immediately followed by its CREATE-IF-NOT-EXISTS;
incremental mode schedules only the CREATE statements; the whole list is
the single batch handed to destination_hook.run. -/
theorem c8_ddl_schedule :
    ∀ tables : List (String × String),
      initializeQueries false tables
        = tables.flatMap (fun td => [formatTable DROP_TABLE_QUERY td.1,
            formatTableDefinition CREATE_TABLE_QUERY td.1 td.2]) ∧
      initializeQueries true tables
        = tables.map (fun td => formatTableDefinition CREATE_TABLE_QUERY td.1 td.2) := by
  intro tables
  constructor
  · rw [initializeQueries, initializeQueries_eq_append]
    simp
  · rw [initializeQueries, initializeQueries_eq_append]
    simp
    induction tables with
    | nil => rfl
    | cons hd tl ih => simp [List.flatMap_cons, ih]

/-- C9: every successfully parsed table mapping has its derived lists
index-aligned: fields, originalKeys, types and definition all have one
entry per declared field entry of the mapping. -/
theorem c9_derived_lists_aligned :
    ∀ (translation : List (String × List (String × List (String × String)))) (m : MappingElements),
      MappingElements.build translation = Except.ok m →
      m.fields.length = m.mapping.length ∧ m.original.length = m.mapping.length ∧
        m.types.length = m.mapping.length ∧ m.definition.length = m.mapping.length := by
  intro translation m h
  cases translation with
  | nil => exact absurd h (by simp [MappingElements.build])
  | cons hd tl =>
    obtain ⟨destination, mapping⟩ := hd
    rw [MappingElements.build] at h
    injection h with h1
    subst h1
    simp

/-- C9 witness at a concrete translation. -/
theorem c9_derived_lists_aligned_witness :
    uniqueElems.fields.length = uniqueElems.mapping.length ∧
    uniqueElems.original.length = uniqueElems.mapping.length ∧
    uniqueElems.types.length = uniqueElems.mapping.length ∧
    uniqueElems.definition.length = uniqueElems.mapping.length :=
  c9_derived_lists_aligned uniqueTranslation uniqueElems rfl

/-- C10: the flattened-document lookup of normalize uses the unstripped
source key, asterisk included; a document whose actual key is the
unmarked name therefore yields no value and the emitted literal is NULL,
for every value the document holds under the unmarked key. -/
theorem c10_unstripped_lookup_yields_null :
    ∀ v : Int,
      uniqueElems.original = ["UserId*"] ∧
      pyDictGet (flatten [("UserId", JVal.vint v)] "" "__") "UserId*" = none ∧
      normalize 2 [JVal.vdict [("UserId", JVal.vint v)]] [("t", [])] [("t", 0)]
          uniqueMappings "t" 0 0 "__" true
        = Except.ok ([("t", ["(1, NULL)"])], [("t", 1)]) :=
  fun _ => ⟨rfl, rfl, rfl⟩


theorem any_eq_find?_isSome {α : Type} (l : List (String × α)) (p : (String × α) → Bool) :
    l.any p = (l.find? p).isSome := by
  induction l with
  | nil => rfl
  | cons hd tl ih => cases hp : p hd <;> simp [List.any_cons, List.find?, hp, ih]

theorem find?_append_none {α : Type} (l1 l2 : List (String × α)) (p : (String × α) → Bool)
    (h : l1.find? p = none) : (l1 ++ l2).find? p = l2.find? p := by
  induction l1 with
  | nil => rfl
  | cons hd tl ih =>
    cases hp : p hd with
    | true => simp [List.find?, hp] at h
    | false =>
      simp only [List.find?, hp] at h
      simp only [List.cons_append, List.find?, hp]
      exact ih h

theorem find?_append_some {α : Type} (l1 l2 : List (String × α)) (p : (String × α) → Bool)
    (y : String × α) (h : l1.find? p = some y) : (l1 ++ l2).find? p = some y := by
  induction l1 with
  | nil => simp [List.find?] at h
  | cons hd tl ih =>
    cases hp : p hd with
    | true =>
      simp only [List.find?, hp] at h
      simp only [List.cons_append, List.find?, hp]
      exact h
    | false =>
      simp only [List.find?, hp] at h
      simp only [List.cons_append, List.find?, hp]
      exact ih h

theorem find?_map_upd {α : Type} (l : List (String × α)) (k : String) (v : α) :
    (l.map (fun p => if p.1 == k then (k, v) else p)).find? (fun p => p.1 == k)
      = (l.find? (fun p => p.1 == k)).map (fun _ => (k, v)) := by
  induction l with
  | nil => rfl
  | cons hd tl ih =>
    cases hk : hd.1 == k with
    | true => simp [List.find?, hk]
    | false =>
      simp only [List.map_cons, hk, Bool.false_eq_true, if_false]
      simp only [List.find?, hk]
      exact ih

theorem find?_map_upd_ne {α : Type} (l : List (String × α)) (k k' : String) (v : α) (hne : k' ≠ k) :
    (l.map (fun p => if p.1 == k then (k, v) else p)).find? (fun p => p.1 == k')
      = l.find? (fun p => p.1 == k') := by
  induction l with
  | nil => rfl
  | cons hd tl ih =>
    cases hk : hd.1 == k with
    | true =>
      have h1 : ((k, v).1 == k') = false := by
        simp only [beq_eq_false_iff_ne, ne_eq]
        intro hh; exact hne hh.symm
      have h2 : (hd.1 == k') = false := by
        simp only [beq_eq_false_iff_ne, ne_eq]
        intro hh
        rw [beq_iff_eq] at hk
        rw [hh] at hk
        exact hne hk
      simp only [List.map_cons, hk, if_true]
      simp only [List.find?, h1, h2]
      exact ih
    | false =>
      simp only [List.map_cons, hk, Bool.false_eq_true, if_false]
      cases hp : hd.1 == k' with
      | true => simp [List.find?, hp]
      | false =>
        simp only [List.find?, hp]
        exact ih

theorem assocGet_set_self {α : Type} (l : List (String × α)) (k : String) (v : α) :
    assocGet (assocSet l k v) k = some v := by
  unfold assocSet assocGet
  cases h : l.any (fun p => p.1 == k) with
  | true =>
    simp only [if_true]
    rw [find?_map_upd]
    rw [any_eq_find?_isSome] at h
    cases hf : l.find? (fun p => p.1 == k) with
    | none => rw [hf] at h; simp at h
    | some y => simp
  | false =>
    simp only [Bool.false_eq_true, if_false]
    rw [any_eq_find?_isSome] at h
    have hf : l.find? (fun p => p.1 == k) = none := by
      cases hf : l.find? (fun p => p.1 == k) with
      | none => rfl
      | some y => rw [hf] at h; simp at h
    rw [find?_append_none _ _ _ hf]
    simp [List.find?]

theorem assocGet_set_ne {α : Type} (l : List (String × α)) (k k' : String) (v : α) (hne : k' ≠ k) :
    assocGet (assocSet l k v) k' = assocGet l k' := by
  unfold assocSet assocGet
  cases h : l.any (fun p => p.1 == k) with
  | true =>
    simp only [if_true]
    rw [find?_map_upd_ne _ _ _ _ hne]
  | false =>
    simp only [Bool.false_eq_true, if_false]
    have h1 : ((k, v).1 == k') = false := by
      simp only [beq_eq_false_iff_ne, ne_eq]
      intro hh; exact hne hh.symm
    cases hf : l.find? (fun p => p.1 == k') with
    | none =>
      rw [find?_append_none _ _ _ hf]
      simp [List.find?, h1, hf]
    | some y =>
      rw [find?_append_some _ _ _ _ hf]

theorem famChild_loop (recurse : List JVal → Buffers → Ids → String → Int → Int → Except String (Buffers × Ids)) :
    ∀ (cs : List Int) (prows crows : List String) (i : Ids) (f t : Int),
      f ≠ 0 →
      normalizeLoop recurse childElems [] "root.children" f "__" (cs.map famChildDoc)
        [("root", prows), ("root.children", crows)] i t
      = Except.ok ([("root", prows), ("root.children", crows ++ famChildBlock f t cs)], i,
          t + (cs.length : Int)) := by
  intro cs
  induction cs with
  | nil =>
    intro prows crows i f t hf
    simp [normalizeLoop, famChildBlock]
  | cons c cst ih =>
    intro prows crows i f t hf
    have hfk : (f != 0) = true := by simpa using hf
    simp only [List.map_cons, normalizeLoop]
    rw [hfk]
    show normalizeLoop recurse childElems [] "root.children" f "__" (cst.map famChildDoc)
        [("root", prows), ("root.children",
          crows ++ ["(" ++ String.intercalate ", " [toString f, toString (t+1), toString c] ++ ")"])]
        i (t+1)
      = Except.ok ([("root", prows), ("root.children", crows ++ famChildBlock f t (c :: cst))], i,
          t + ((c :: cst).length : Int))
    rw [ih _ _ i f (t+1) hf]
    have harith : t + 1 + (cst.length : Int) = t + ((c :: cst).length : Int) := by
      simp only [List.length_cons]
      push_cast
      ring
    rw [harith]
    have hrows : (crows ++ ["(" ++ String.intercalate ", " [toString f, toString (t+1), toString c] ++ ")"])
        ++ famChildBlock f (t+1) cst = crows ++ famChildBlock f t (c :: cst) := by
      rw [show famChildBlock f t (c :: cst)
          = rowLiteral f (t+1) [toString c] :: famChildBlock f (t+1) cst from rfl]
      rw [show rowLiteral f (t+1) [toString c]
          = "(" ++ String.intercalate ", "
              ((if f != 0 then [toString f] else []) ++ [toString (t+1)] ++ [toString c]) ++ ")" from rfl]
      rw [hfk]
      simp [List.append_assoc]
    rw [hrows]

theorem exceptBind_ok {ε α β : Type} (a : α) (f : α → Except ε β) :
    (Except.ok a : Except ε α) >>= f = f a := rfl

theorem famChild_run (fuel : Nat) :
    ∀ (cs : List Int) (prows crows : List String) (r0 t f : Int),
      f ≠ 0 →
      normalize (fuel+1) (cs.map famChildDoc) [("root", prows), ("root.children", crows)]
        [("root", r0), ("root.children", t)] famMappings "root.children" f t "__" true
      = Except.ok ([("root", prows), ("root.children", crows ++ famChildBlock f t cs)],
          [("root", r0), ("root.children", t + (cs.length : Int))]) := by
  intro cs prows crows r0 t f hf
  have hl := famChild_loop (fun docs b i ck f cid => normalize fuel docs b i famMappings ck f cid "__" true)
    cs prows crows [("root", r0), ("root.children", t)] f t hf
  by_cases ht : t = 0
  · subst ht
    simp only [normalize, keyGet, exceptBind_ok,
               show (assocGet [("root", prows), ("root.children", crows)] "root.children").isNone = false from rfl,
               show nestedKeysFor famMappings "root.children" = [] from rfl,
               show assocGet famMappings "root.children" = some childElems from rfl,
               show (((0:Int)) == 0) = true from rfl,
               show assocGet [("root", r0), ("root.children", (0:Int))] "root.children" = some (0:Int) from rfl,
               Bool.false_eq_true, if_false, eq_self_iff_true, if_true]
    rw [hl]
    rfl
  · have ht2 : ((t : Int) == 0) = false := by simpa using ht
    simp only [normalize, keyGet, exceptBind_ok, ht2,
               show (assocGet [("root", prows), ("root.children", crows)] "root.children").isNone = false from rfl,
               show nestedKeysFor famMappings "root.children" = [] from rfl,
               show assocGet famMappings "root.children" = some childElems from rfl,
               Bool.false_eq_true, if_false]
    rw [hl]
    rfl

theorem jsonDumps_famChildDoc (c : Int) : jsonDumps (famChildDoc c) = Except.ok (famJsonItem c) := rfl

theorem jsonDumpsList_fam : ∀ cs : List Int,
    jsonDumpsList (cs.map famChildDoc) = Except.ok (cs.map famJsonItem) := by
  intro cs
  induction cs with
  | nil => rfl
  | cons c cst ih =>
    simp only [List.map_cons, jsonDumpsList, jsonDumps_famChildDoc, ih, exceptBind_ok]

theorem jsonDumps_famList (cs : List Int) :
    jsonDumps (JVal.vlist (cs.map famChildDoc)) = Except.ok (famJson cs) := by
  simp only [jsonDumps, jsonDumpsList_fam, exceptBind_ok]
  rfl

theorem prepare_value_famChildren (cs : List Int) :
    prepare_value (JVal.vlist (cs.map famChildDoc)) "varchar" = Except.ok (JVal.vstr (famParentVal cs)) := by
  rw [show prepare_value (JVal.vlist (cs.map famChildDoc)) "varchar"
      = (do
          let j ← jsonDumps (JVal.vlist (cs.map famChildDoc))
          Except.ok (JVal.vstr (apos ++ pyReplace (pyReplace j bslash (bslash ++ bslash)) apos
            (apos ++ apos) ++ apos)))
      from rfl]
  rw [jsonDumps_famList]
  rfl

theorem famParent_loop (fuel : Nat) :
    ∀ (docss : List (List Int)) (prows crows : List String) (r0 t s : Int),
      0 ≤ s →
      normalizeLoop (fun docs b i ck f cid => normalize (fuel+1) docs b i famMappings ck f cid "__" true)
        rootElems ["children"] "root" 0 "__" (docss.map famParentDoc)
        [("root", prows), ("root.children", crows)] [("root", r0), ("root.children", t)] s
      = Except.ok ([("root", prows ++ famParentRows s docss),
                    ("root.children", crows ++ famChildRows s t docss)],
                   [("root", r0), ("root.children", t + famTotal docss)], s + (docss.length : Int)) := by
  intro docss
  induction docss with
  | nil =>
    intro prows crows r0 t s hs
    simp [normalizeLoop, famParentRows, famChildRows, famTotal]
  | cons cs rest ih =>
    intro prows crows r0 t s hs
    rw [List.map_cons]
    cases cs with
    | nil =>
      change normalizeLoop (fun docs b i ck f cid => normalize (fuel+1) docs b i famMappings ck f cid "__" true)
          rootElems ["children"] "root" 0 "__" (rest.map famParentDoc)
          [("root", prows ++ ["(" ++ String.intercalate ", " [toString (s+1), famParentVal []] ++ ")"]),
           ("root.children", crows)]
          [("root", r0), ("root.children", t)] (s+1) = _
      rw [ih _ _ r0 t (s+1) (by omega)]
      have h1 : famParentRows s ([] :: rest)
          = rowLiteral 0 (s+1) [famParentVal []] :: famParentRows (s+1) rest := rfl
      have h2 : rowLiteral 0 (s+1) [famParentVal []]
          = "(" ++ String.intercalate ", " [toString (s+1), famParentVal []] ++ ")" := rfl
      have h3 : famChildRows s t ([] :: rest) = famChildRows (s+1) (t + ((0:Nat) : Int)) rest := rfl
      have h4 : famTotal ([] :: rest) = (((List.length ([] : List Int)) : Nat) : Int) + famTotal rest := rfl
      rw [h1, h2, h3, h4]
      have h5 : t + ((0:Nat) : Int) = t := by push_cast; ring
      have h6 : ((List.length ([] : List Int) : Nat) : Int) = 0 := by simp
      rw [h5, h6]
      have h7 : s + 1 + ((rest.length : Nat) : Int) = s + (((([] : List Int) :: rest).length : Nat) : Int) := by
        simp only [List.length_cons]
        push_cast
        ring
      rw [h7]
      have h8 : t + (0 + famTotal rest) = t + famTotal rest := by ring
      rw [h8]
      simp [List.append_assoc]
    | cons c cst =>
      change (do
          let fo ← (do
              let prepared ← prepare_value (JVal.vlist ((c :: cst).map famChildDoc)) "varchar"
              let bi ← normalize (fuel+1) ((c :: cst).map famChildDoc)
                  [("root", prows), ("root.children", crows)] [("root", r0), ("root.children", t)]
                  famMappings "root.children" (s+1) t "__" true
              Except.ok (bi.1, bi.2, ([prepared] : List JVal)))
          let joined ← pyJoin ", " ([JVal.vstr (toString (s+1))] ++ fo.2.2)
          let b2 ← bufAppend fo.1 "root" ("(" ++ joined ++ ")")
          normalizeLoop (fun docs b i ck f cid => normalize (fuel+1) docs b i famMappings ck f cid "__" true)
            rootElems ["children"] "root" 0 "__" (rest.map famParentDoc) b2 fo.2.1 (s+1)) = _
      rw [prepare_value_famChildren (c :: cst)]
      rw [famChild_run fuel (c :: cst) prows crows r0 t (s+1) (by omega)]
      change normalizeLoop (fun docs b i ck f cid => normalize (fuel+1) docs b i famMappings ck f cid "__" true)
          rootElems ["children"] "root" 0 "__" (rest.map famParentDoc)
          [("root", prows ++ ["(" ++ String.intercalate ", "
              [toString (s+1), famParentVal (c :: cst)] ++ ")"]),
           ("root.children", crows ++ famChildBlock (s+1) t (c :: cst))]
          [("root", r0), ("root.children", t + (((c :: cst).length : Nat) : Int))] (s+1) = _
      rw [ih _ _ r0 (t + (((c :: cst).length : Nat) : Int)) (s+1) (by omega)]
      have h1 : famParentRows s ((c :: cst) :: rest)
          = rowLiteral 0 (s+1) [famParentVal (c :: cst)] :: famParentRows (s+1) rest := rfl
      have h2 : rowLiteral 0 (s+1) [famParentVal (c :: cst)]
          = "(" ++ String.intercalate ", " [toString (s+1), famParentVal (c :: cst)] ++ ")" := rfl
      have h3 : famChildRows s t ((c :: cst) :: rest)
          = famChildBlock (s+1) t (c :: cst)
            ++ famChildRows (s+1) (t + (((c :: cst).length : Nat) : Int)) rest := rfl
      have h4 : famTotal ((c :: cst) :: rest)
          = (((c :: cst).length : Nat) : Int) + famTotal rest := rfl
      rw [h1, h2, h3, h4]
      have h7 : s + 1 + ((rest.length : Nat) : Int)
          = s + ((((c :: cst) :: rest).length : Nat) : Int) := by
        simp only [List.length_cons]
        push_cast
        ring
      rw [h7]
      have h8 : t + (((c :: cst).length : Nat) : Int) + famTotal rest
          = t + ((((c :: cst).length : Nat) : Int) + famTotal rest) := by ring
      rw [h8]
      simp [List.append_assoc]

theorem famRun (fuel : Nat) (docss : List (List Int)) :
    normalize (fuel+2) (docss.map famParentDoc) [("root", []), ("root.children", [])]
      [("root", 0), ("root.children", 0)] famMappings "root" 0 0 "__" true
    = Except.ok ([("root", famParentRows 0 docss), ("root.children", famChildRows 0 0 docss)],
        [("root", (docss.length : Int)), ("root.children", famTotal docss)]) := by
  change (do
      let r ← normalizeLoop (fun docs b i ck f cid => normalize (fuel+1) docs b i famMappings ck f cid "__" true)
          rootElems ["children"] "root" 0 "__" (docss.map famParentDoc)
          [("root", []), ("root.children", [])] [("root", 0), ("root.children", 0)] 0
      Except.ok (r.1, assocSet r.2.1 "root" r.2.2)) = _
  rw [famParent_loop fuel docss [] [] 0 0 0 (by omega)]
  change Except.ok ([("root", [] ++ famParentRows 0 docss), ("root.children", [] ++ famChildRows 0 0 docss)],
      [("root", (0:Int) + (docss.length : Int)), ("root.children", (0:Int) + famTotal docss)]) = _
  simp

/-- C1: for every invocation of normalize in which a field holds a
non-empty list and names a declared child table, every generated
child-table row carries as its foreign key exactly the surrogate id of
the parent row whose array spawned it.  First conjunct: the general
two-level statement over any number of source documents with children
arrays of any sizes and contents (every row of famChildRows is built by
famChildBlock with the parent id as fk).  Second conjunct: the spec
end-to-end instance, 3 source documents with 2-element children arrays
yield parent ids 1..3, child ids 1..6 and the (fk, id) pairs
(1,1),(1,2),(2,3),(2,4),(3,5),(3,6) visible in the row literals. -/
theorem c1_child_fk_equals_parent_id :
    (∀ (fuel : Nat) (docss : List (List Int)),
      normalize (fuel+2) (docss.map famParentDoc) [("root", []), ("root.children", [])]
        [("root", 0), ("root.children", 0)] famMappings "root" 0 0 "__" true
      = Except.ok ([("root", famParentRows 0 docss), ("root.children", famChildRows 0 0 docss)],
          [("root", (docss.length : Int)), ("root.children", famTotal docss)])) ∧
    normalize 1000 threeDocs [("root", []), ("root.children", [])] [("root", 0), ("root.children", 0)]
        famMappings "root" 0 0 "__" true
    = Except.ok
        ([("root",
            ["(1, " ++ apos ++ "[\x7b\"x\": 10\x7d, \x7b\"x\": 20\x7d]" ++ apos ++ ")",
             "(2, " ++ apos ++ "[\x7b\"x\": 30\x7d, \x7b\"x\": 40\x7d]" ++ apos ++ ")",
             "(3, " ++ apos ++ "[\x7b\"x\": 50\x7d, \x7b\"x\": 60\x7d]" ++ apos ++ ")"]),
          ("root.children",
            ["(1, 1, 10)", "(1, 2, 20)", "(2, 3, 30)", "(2, 4, 40)", "(3, 5, 50)", "(3, 6, 60)"])],
         [("root", 3), ("root.children", 6)]) :=
  ⟨famRun, rfl⟩

theorem exceptBind_err {ε α β : Type} (e : ε) (f : α → Except ε β) :
    (Except.error e : Except ε α) >>= f = Except.error e := rfl

theorem exceptBind_ok_iff {ε α β : Type} (x : Except ε α) (f : α → Except ε β) (c : β) :
    (x >>= f) = Except.ok c ↔ ∃ a, x = Except.ok a ∧ f a = Except.ok c := by
  cases x with
  | ok a => simp [exceptBind_ok]
  | error e => simp [exceptBind_err]

theorem keyGet_ok {α : Type} (o : Option α) (a : α) (h : keyGet o = Except.ok a) : o = some a := by
  cases o with
  | some x =>
    simp only [keyGet, Except.ok.injEq] at h
    rw [h]
  | none => exact Except.noConfusion h

theorem vstrAll_ok_imp : ∀ (l : List JVal) (strs : List String),
    vstrAll l = Except.ok strs → l = strs.map JVal.vstr := by
  intro l
  induction l with
  | nil =>
    intro strs h
    simp only [vstrAll, Except.ok.injEq] at h
    rw [← h]
    rfl
  | cons v rest ih =>
    intro strs h
    simp only [vstrAll] at h
    rw [exceptBind_ok_iff] at h
    obtain ⟨a, ha, h⟩ := h
    rw [exceptBind_ok_iff] at h
    obtain ⟨ss, hss, h⟩ := h
    cases v with
    | vstr s =>
      simp only [strOfVStr, Except.ok.injEq] at ha
      simp only [Except.ok.injEq] at h
      rw [← h, List.map_cons, ← ih ss hss, ha]
    | vnull => exact Except.noConfusion ha
    | vbool b => exact Except.noConfusion ha
    | vint n => exact Except.noConfusion ha
    | vdatetime y mo d hh mi sec us => exact Except.noConfusion ha
    | vlist xs => exact Except.noConfusion ha
    | vdict kvs => exact Except.noConfusion ha

theorem vstrAll_cons_vstr (a : String) (l : List JVal) :
    vstrAll (JVal.vstr a :: l) = (vstrAll l) >>= (fun ss => Except.ok (a :: ss)) := rfl

theorem pyJoin_row (fk idv : Int) (values : List JVal) (j : String)
    (h : pyJoin ", " ((if fk != 0 then [JVal.vstr (toString fk)] else [])
        ++ [JVal.vstr (toString idv)] ++ values) = Except.ok j) :
    ∃ strs : List String, values = strs.map JVal.vstr ∧ "(" ++ j ++ ")" = rowLiteral fk idv strs := by
  simp only [pyJoin] at h
  rw [exceptBind_ok_iff] at h
  obtain ⟨allstrs, hall, hj⟩ := h
  simp only [Except.ok.injEq] at hj
  cases hfk : fk != 0 with
  | true =>
    rw [hfk] at hall
    simp only [eq_self_iff_true, if_true] at hall
    rw [show ([JVal.vstr (toString fk)] ++ [JVal.vstr (toString idv)] ++ values)
        = JVal.vstr (toString fk) :: JVal.vstr (toString idv) :: values from rfl] at hall
    rw [vstrAll_cons_vstr, exceptBind_ok_iff] at hall
    obtain ⟨a1, ha1, hall⟩ := hall
    rw [vstrAll_cons_vstr, exceptBind_ok_iff] at ha1
    obtain ⟨ss, hss, ha1⟩ := ha1
    simp only [Except.ok.injEq] at ha1 hall
    refine ⟨ss, vstrAll_ok_imp values ss hss, ?_⟩
    simp only [rowLiteral, hfk]
    rw [← hj, ← hall, ← ha1]
    rfl
  | false =>
    rw [hfk] at hall
    simp only [Bool.false_eq_true, if_false] at hall
    rw [show (([] : List JVal) ++ [JVal.vstr (toString idv)] ++ values)
        = JVal.vstr (toString idv) :: values from rfl] at hall
    rw [vstrAll_cons_vstr, exceptBind_ok_iff] at hall
    obtain ⟨ss, hss, hall⟩ := hall
    simp only [Except.ok.injEq] at hall
    refine ⟨ss, vstrAll_ok_imp values ss hss, ?_⟩
    simp only [rowLiteral, hfk]
    rw [← hj, ← hall]
    rfl

theorem normalizeFields_preserve
    (recurse : List JVal → Buffers → Ids → String → Int → Int → Except String (Buffers × Ids))
    (flat : List (String × JVal)) (nested : List String) (parent_key : String) (id : Int)
    (Hrec : ∀ (key : String) (xs : List JVal) (b : Buffers) (i : Ids) (cid : Int)
        (b2 : Buffers) (i2 : Ids),
      recurse xs b i (parent_key ++ "." ++ key) id cid = Except.ok (b2, i2) →
      ∀ K : String, K.length ≤ parent_key.length →
        assocGet b2 K = assocGet b K ∧ assocGet i2 K = assocGet i K) :
    ∀ (fs os cs : List String) (b : Buffers) (i : Ids) (b2 : Buffers) (i2 : Ids) (vals : List JVal),
      normalizeFields recurse flat nested parent_key id fs os cs b i = Except.ok (b2, i2, vals) →
      ∀ K : String, K.length ≤ parent_key.length →
        assocGet b2 K = assocGet b K ∧ assocGet i2 K = assocGet i K := by
  intro fs
  induction fs with
  | nil =>
    intro os cs b i b2 i2 vals h K hK
    simp only [normalizeFields, Except.ok.injEq, Prod.mk.injEq] at h
    obtain ⟨hb, hi, -⟩ := h
    rw [← hb, ← hi]
    exact ⟨rfl, rfl⟩
  | cons key fs ih =>
    intro os cs b i b2 i2 vals h K hK
    cases os with
    | nil =>
      simp only [normalizeFields] at h
      exact Except.noConfusion h
    | cons origin os2 =>
      cases cs with
      | nil =>
        simp only [normalizeFields] at h
        exact Except.noConfusion h
      | cons cast cs2 =>
        simp only [normalizeFields] at h
        rw [exceptBind_ok_iff] at h
        obtain ⟨prepared, hp, h⟩ := h
        rw [exceptBind_ok_iff] at h
        obtain ⟨bi, hbi, h⟩ := h
        rw [exceptBind_ok_iff] at h
        obtain ⟨tr, htr, h⟩ := h
        obtain ⟨b3, i3, vals3⟩ := tr
        simp only [Except.ok.injEq, Prod.mk.injEq] at h
        obtain ⟨hb3, hi3, -⟩ := h
        obtain ⟨bb, ii⟩ := bi
        have step2 := ih os2 cs2 bb ii b3 i3 vals3 htr K hK
        have step1 : assocGet bb K = assocGet b K ∧ assocGet ii K = assocGet i K := by
          rcases hvo : pyDictGet flat origin with - | v
          · rw [hvo] at hbi
            simp only [Except.ok.injEq, Prod.mk.injEq] at hbi
            obtain ⟨h1, h2⟩ := hbi
            rw [← h1, ← h2]
            exact ⟨rfl, rfl⟩
          · cases v with
            | vlist xs =>
              rw [hvo] at hbi
              by_cases hcond : (!xs.isEmpty && nested.contains key) = true
              · simp only [hcond, eq_self_iff_true, if_true] at hbi
                exact Hrec key xs b i _ bb ii hbi K hK
              · simp only [Bool.not_eq_true] at hcond
                simp only [hcond, Bool.false_eq_true, if_false, Except.ok.injEq,
                  Prod.mk.injEq] at hbi
                obtain ⟨h1, h2⟩ := hbi
                rw [← h1, ← h2]
                exact ⟨rfl, rfl⟩
            | vnull =>
              rw [hvo] at hbi
              simp only [Except.ok.injEq, Prod.mk.injEq] at hbi
              obtain ⟨h1, h2⟩ := hbi
              rw [← h1, ← h2]
              exact ⟨rfl, rfl⟩
            | vbool bv =>
              rw [hvo] at hbi
              simp only [Except.ok.injEq, Prod.mk.injEq] at hbi
              obtain ⟨h1, h2⟩ := hbi
              rw [← h1, ← h2]
              exact ⟨rfl, rfl⟩
            | vint n =>
              rw [hvo] at hbi
              simp only [Except.ok.injEq, Prod.mk.injEq] at hbi
              obtain ⟨h1, h2⟩ := hbi
              rw [← h1, ← h2]
              exact ⟨rfl, rfl⟩
            | vstr s =>
              rw [hvo] at hbi
              simp only [Except.ok.injEq, Prod.mk.injEq] at hbi
              obtain ⟨h1, h2⟩ := hbi
              rw [← h1, ← h2]
              exact ⟨rfl, rfl⟩
            | vdatetime y mo d hh mi sec us =>
              rw [hvo] at hbi
              simp only [Except.ok.injEq, Prod.mk.injEq] at hbi
              obtain ⟨h1, h2⟩ := hbi
              rw [← h1, ← h2]
              exact ⟨rfl, rfl⟩
            | vdict kvs =>
              rw [hvo] at hbi
              simp only [Except.ok.injEq, Prod.mk.injEq] at hbi
              obtain ⟨h1, h2⟩ := hbi
              rw [← h1, ← h2]
              exact ⟨rfl, rfl⟩
        rw [← hb3, ← hi3]
        exact ⟨step2.1.trans step1.1, step2.2.trans step1.2⟩

theorem normalizeLoop_spec
    (recurse : List JVal → Buffers → Ids → String → Int → Int → Except String (Buffers × Ids))
    (mapping : MappingElements) (nested : List String) (parent_key : String)
    (fk : Int) (delim : String)
    (Hrec : ∀ (key : String) (xs : List JVal) (b : Buffers) (i : Ids) (f cid : Int)
        (b2 : Buffers) (i2 : Ids),
      recurse xs b i (parent_key ++ "." ++ key) f cid = Except.ok (b2, i2) →
      ∀ K : String, K.length ≤ parent_key.length →
        assocGet b2 K = assocGet b K ∧ assocGet i2 K = assocGet i K) :
    ∀ (docs : List JVal) (b : Buffers) (i : Ids) (id : Int) (rows0 : List String)
      (b2 : Buffers) (i2 : Ids) (id2 : Int),
      assocGet b parent_key = some rows0 →
      normalizeLoop recurse mapping nested parent_key fk delim docs b i id = Except.ok (b2, i2, id2) →
      id2 = id + (docs.length : Int) ∧
      ∃ valss : List (List String),
        valss.length = docs.length ∧
        assocGet b2 parent_key = some (rows0 ++ rowsFrom fk id valss) ∧
        ∀ K : String, K.length < parent_key.length →
          assocGet b2 K = assocGet b K ∧ assocGet i2 K = assocGet i K := by
  intro docs
  induction docs with
  | nil =>
    intro b i id rows0 b2 i2 id2 hb h
    simp only [normalizeLoop, Except.ok.injEq, Prod.mk.injEq] at h
    obtain ⟨h1, h2, h3⟩ := h
    refine ⟨by rw [← h3]; simp, [], rfl, ?_, ?_⟩
    · rw [← h1, show rowsFrom fk id [] = [] from rfl, List.append_nil]
      exact hb
    · intro K hK
      rw [← h1, ← h2]
      exact ⟨rfl, rfl⟩
  | cons doc rest ih =>
    intro b i id rows0 b2 i2 id2 hb h
    simp only [normalizeLoop] at h
    rw [exceptBind_ok_iff] at h
    obtain ⟨kvs, hkvs, h⟩ := h
    rw [exceptBind_ok_iff] at h
    obtain ⟨tr, htr, h⟩ := h
    obtain ⟨b3, i3, values⟩ := tr
    rw [exceptBind_ok_iff] at h
    obtain ⟨joined, hj, h⟩ := h
    rw [exceptBind_ok_iff] at h
    obtain ⟨b4, hb4, h⟩ := h
    have hfp := normalizeFields_preserve recurse (flatten kvs "" delim) nested parent_key (id+1)
      (fun key xs bb ii cid bb2 ii2 hr => Hrec key xs bb ii (id+1) cid bb2 ii2 hr)
      mapping.fields mapping.original mapping.types b i b3 i3 values htr
    have hb3P : assocGet b3 parent_key = some rows0 := by
      rw [(hfp parent_key (le_refl _)).1]
      exact hb
    obtain ⟨strs, hvals, hrow⟩ := pyJoin_row fk (id+1) values joined hj
    simp only [bufAppend, hb3P, Except.ok.injEq] at hb4
    have hb4P : assocGet b4 parent_key = some (rows0 ++ ["(" ++ joined ++ ")"]) := by
      rw [← hb4]
      exact assocGet_set_self _ _ _
    obtain ⟨hid2, valss2, hlen2, hbuf2, hpres2⟩ :=
      ih b4 i3 (id+1) (rows0 ++ ["(" ++ joined ++ ")"]) b2 i2 id2 hb4P h
    refine ⟨?_, strs :: valss2, ?_, ?_, ?_⟩
    · rw [hid2, List.length_cons]
      push_cast
      ring
    · simp [hlen2]
    · rw [hbuf2, show rowsFrom fk id (strs :: valss2)
          = rowLiteral fk (id+1) strs :: rowsFrom fk (id+1) valss2 from rfl]
      rw [← hrow]
      simp [List.append_assoc]
    · intro K hK
      have c1 := hpres2 K hK
      have c2 : assocGet b4 K = assocGet b3 K := by
        rw [← hb4]
        exact assocGet_set_ne _ _ _ _ (by
          intro hKP
          rw [hKP] at hK
          exact absurd hK (lt_irrefl _))
      have c3 := hfp K (le_of_lt hK)
      exact ⟨(c1.1.trans c2).trans c3.1, c1.2.trans c3.2⟩

theorem strLen_child (P key : String) : (P ++ "." ++ key).length = P.length + 1 + key.length := by
  rw [String.length_append, String.length_append]
  rfl

theorem normalize_preserve :
    ∀ (fuel : Nat) (docs : List JVal) (b : Buffers) (i : Ids) (m : Mappings) (P : String)
      (fk id0 : Int) (delim : String) (st : Bool) (b2 : Buffers) (i2 : Ids),
      normalize fuel docs b i m P fk id0 delim st = Except.ok (b2, i2) →
      ∀ K : String, K.length < P.length →
        assocGet b2 K = assocGet b K ∧ assocGet i2 K = assocGet i K := by
  intro fuel
  induction fuel with
  | zero =>
    intro docs b i m P fk id0 delim st b2 i2 h K hK
    simp only [normalize] at h
    exact Except.noConfusion h
  | succ fuel ih =>
    intro docs b i m P fk id0 delim st b2 i2 h K hK
    simp only [normalize] at h
    rw [exceptBind_ok_iff] at h
    obtain ⟨mapping, hm, h⟩ := h
    have hKP : K ≠ P := by
      intro hKP
      rw [hKP] at hK
      exact absurd hK (lt_irrefl _)
    have Hrec : ∀ (key : String) (xs : List JVal) (bb : Buffers) (ii : Ids) (f cid : Int)
        (bb2 : Buffers) (ii2 : Ids),
        normalize fuel xs bb ii m (P ++ "." ++ key) f cid "__" true = Except.ok (bb2, ii2) →
        ∀ K2 : String, K2.length ≤ P.length →
          assocGet bb2 K2 = assocGet bb K2 ∧ assocGet ii2 K2 = assocGet ii K2 := by
      intro key xs bb ii f cid bb2 ii2 hr K2 hK2
      refine ih xs bb ii m (P ++ "." ++ key) f cid "__" true bb2 ii2 hr K2 ?_
      rw [strLen_child]
      omega
    have tail : ∀ (sid : Int) (b3 : Buffers) (i3 : Ids) (id3 : Int),
        normalizeLoop (fun docs b i ck f cid => normalize fuel docs b i m ck f cid "__" true) mapping
          (nestedKeysFor m P) P fk delim docs
          (if (assocGet b P).isNone = true then assocSet b P [] else b) i sid
          = Except.ok (b3, i3, id3) →
        b3 = b2 → assocSet i3 P id3 = i2 →
        assocGet b2 K = assocGet b K ∧ assocGet i2 K = assocGet i K := by
      intro sid b3 i3 id3 htr hb2 hi2
      cases hgb : assocGet b P with
      | none =>
        simp only [hgb, Option.isNone_none, if_true] at htr
        obtain ⟨-, -, -, -, hpres⟩ := normalizeLoop_spec _ mapping (nestedKeysFor m P) P fk delim Hrec
          docs (assocSet b P []) i sid [] b3 i3 id3 (assocGet_set_self _ _ _) htr
        have hc := hpres K hK
        refine ⟨?_, ?_⟩
        · rw [← hb2, hc.1, assocGet_set_ne _ _ _ _ hKP]
        · rw [← hi2, assocGet_set_ne _ _ _ _ hKP, hc.2]
      | some rows =>
        simp only [hgb, Option.isNone_some, Bool.false_eq_true, if_false] at htr
        obtain ⟨-, -, -, -, hpres⟩ := normalizeLoop_spec _ mapping (nestedKeysFor m P) P fk delim Hrec
          docs b i sid rows b3 i3 id3 hgb htr
        have hc := hpres K hK
        refine ⟨?_, ?_⟩
        · rw [← hb2, hc.1]
        · rw [← hi2, assocGet_set_ne _ _ _ _ hKP, hc.2]
    cases hc : ((id0 : Int) == 0) with
    | true =>
      simp only [hc, eq_self_iff_true, if_true] at h
      rw [exceptBind_ok_iff] at h
      obtain ⟨sid, hsid, h⟩ := h
      rw [exceptBind_ok_iff] at h
      obtain ⟨d, hd, hfin⟩ := h
      obtain ⟨b3, i3, id3⟩ := d
      simp only [Except.ok.injEq, Prod.mk.injEq] at hfin
      exact tail sid b3 i3 id3 hd hfin.1 hfin.2
    | false =>
      simp only [hc, Bool.false_eq_true, if_false] at h
      rw [exceptBind_ok_iff] at h
      obtain ⟨sid, hsid, h⟩ := h
      rw [exceptBind_ok_iff] at h
      obtain ⟨d, hd, hfin⟩ := h
      obtain ⟨b3, i3, id3⟩ := d
      simp only [Except.ok.injEq, Prod.mk.injEq] at hfin
      exact tail sid b3 i3 id3 hd hfin.1 hfin.2

theorem normalize_run_spec :
    ∀ (fuel : Nat) (docs : List JVal) (b : Buffers) (i : Ids) (m : Mappings) (P : String)
      (fk id0 : Int) (delim : String) (st : Bool) (b2 : Buffers) (i2 : Ids),
      normalize fuel docs b i m P fk id0 delim st = Except.ok (b2, i2) →
      ∃ (s : Int) (valss : List (List String)),
        (id0 = 0 → assocGet i P = some s) ∧ (id0 ≠ 0 → s = id0) ∧
        valss.length = docs.length ∧
        (assocGet b2 P).getD [] = (assocGet b P).getD [] ++ rowsFrom fk s valss ∧
        assocGet i2 P = some (s + (docs.length : Int)) := by
  intro fuel docs b i m P fk id0 delim st b2 i2 h
  cases fuel with
  | zero =>
    simp only [normalize] at h
    exact Except.noConfusion h
  | succ fuel =>
    simp only [normalize] at h
    rw [exceptBind_ok_iff] at h
    obtain ⟨mapping, hm, h⟩ := h
    have Hrec : ∀ (key : String) (xs : List JVal) (bb : Buffers) (ii : Ids) (f cid : Int)
        (bb2 : Buffers) (ii2 : Ids),
        normalize fuel xs bb ii m (P ++ "." ++ key) f cid "__" true = Except.ok (bb2, ii2) →
        ∀ K2 : String, K2.length ≤ P.length →
          assocGet bb2 K2 = assocGet bb K2 ∧ assocGet ii2 K2 = assocGet ii K2 := by
      intro key xs bb ii f cid bb2 ii2 hr K2 hK2
      refine normalize_preserve fuel xs bb ii m (P ++ "." ++ key) f cid "__" true bb2 ii2 hr K2 ?_
      rw [strLen_child]
      omega
    have tail : ∀ (sid : Int) (b3 : Buffers) (i3 : Ids) (id3 : Int),
        normalizeLoop (fun docs b i ck f cid => normalize fuel docs b i m ck f cid "__" true) mapping
          (nestedKeysFor m P) P fk delim docs
          (if (assocGet b P).isNone = true then assocSet b P [] else b) i sid
          = Except.ok (b3, i3, id3) →
        b3 = b2 → assocSet i3 P id3 = i2 →
        ∃ valss : List (List String),
          valss.length = docs.length ∧
          (assocGet b2 P).getD [] = (assocGet b P).getD [] ++ rowsFrom fk sid valss ∧
          assocGet i2 P = some (sid + (docs.length : Int)) := by
      intro sid b3 i3 id3 htr hb2 hi2
      cases hgb : assocGet b P with
      | none =>
        simp only [hgb, Option.isNone_none, if_true] at htr
        obtain ⟨hid3, valss, hlen, hbuf, -⟩ := normalizeLoop_spec _ mapping (nestedKeysFor m P)
          P fk delim Hrec docs (assocSet b P []) i sid [] b3 i3 id3 (assocGet_set_self _ _ _) htr
        refine ⟨valss, hlen, ?_, ?_⟩
        · rw [← hb2, hbuf]
          rfl
        · rw [← hi2, assocGet_set_self, hid3]
      | some rows =>
        simp only [hgb, Option.isNone_some, Bool.false_eq_true, if_false] at htr
        obtain ⟨hid3, valss, hlen, hbuf, -⟩ := normalizeLoop_spec _ mapping (nestedKeysFor m P)
          P fk delim Hrec docs b i sid rows b3 i3 id3 hgb htr
        refine ⟨valss, hlen, ?_, ?_⟩
        · rw [← hb2, hbuf]
          rfl
        · rw [← hi2, assocGet_set_self, hid3]
    cases hc : ((id0 : Int) == 0) with
    | true =>
      have hc2 : id0 = 0 := by simpa using hc
      simp only [hc, eq_self_iff_true, if_true] at h
      rw [exceptBind_ok_iff] at h
      obtain ⟨sid, hsid, h⟩ := h
      rw [exceptBind_ok_iff] at h
      obtain ⟨d, hd, hfin⟩ := h
      obtain ⟨b3, i3, id3⟩ := d
      simp only [Except.ok.injEq, Prod.mk.injEq] at hfin
      obtain ⟨valss, hlen, hbuf, hids⟩ := tail sid b3 i3 id3 hd hfin.1 hfin.2
      exact ⟨sid, valss, fun _ => keyGet_ok _ _ hsid, fun hne => absurd hc2 hne, hlen, hbuf, hids⟩
    | false =>
      have hc2 : id0 ≠ 0 := by simpa using hc
      simp only [hc, Bool.false_eq_true, if_false] at h
      rw [exceptBind_ok_iff] at h
      obtain ⟨sid, hsid, h⟩ := h
      rw [exceptBind_ok_iff] at h
      obtain ⟨d, hd, hfin⟩ := h
      obtain ⟨b3, i3, id3⟩ := d
      simp only [Except.ok.injEq, Prod.mk.injEq] at hfin
      obtain ⟨valss, hlen, hbuf, hids⟩ := tail sid b3 i3 id3 hd hfin.1 hfin.2
      simp only [Except.ok.injEq] at hsid
      exact ⟨sid, valss, fun h0 => absurd h0 hc2, fun _ => hsid.symm, hlen, hbuf, hids⟩

/-- C2: for every successful run of normalize over a list of documents
destined for table path T, the surrogate ids assigned to the rows of T
are the gap-free strictly increasing sequence s+1, s+2, ..., one per
document (rowsFrom assigns id s+k+1 to the k-th row), where the seed s
comes from ids[T] when the caller-supplied start id is 0 and from the
start id otherwise; afterwards ids[T] holds the last assigned id
s + number of documents. -/
theorem c2_surrogate_ids_gap_free :
    ∀ (fuel : Nat) (documents : List JVal) (buffers : Buffers) (ids : Ids) (mappings : Mappings)
      (T : String) (fk id0 : Int) (delim : String) (st : Bool) (buffers2 : Buffers) (ids2 : Ids),
      normalize fuel documents buffers ids mappings T fk id0 delim st = Except.ok (buffers2, ids2) →
      ∃ (s : Int) (valss : List (List String)),
        (id0 = 0 → assocGet ids T = some s) ∧ (id0 ≠ 0 → s = id0) ∧
        valss.length = documents.length ∧
        (assocGet buffers2 T).getD [] = (assocGet buffers T).getD [] ++ rowsFrom fk s valss ∧
        assocGet ids2 T = some (s + (documents.length : Int)) :=
  normalize_run_spec

/-- C2 witness: the statement applied to the concrete three-document
run of the two-level scenario, the hypothesis discharged by evaluation. -/
theorem c2_surrogate_ids_gap_free_witness :
    ∃ (s : Int) (valss : List (List String)),
      ((0:Int) = 0 → assocGet [("root", (0:Int)), ("root.children", 0)] "root" = some s) ∧
      ((0:Int) ≠ 0 → s = 0) ∧
      valss.length = threeDocs.length ∧
      (assocGet
          [("root",
             ["(1, " ++ apos ++ "[\x7b\"x\": 10\x7d, \x7b\"x\": 20\x7d]" ++ apos ++ ")",
              "(2, " ++ apos ++ "[\x7b\"x\": 30\x7d, \x7b\"x\": 40\x7d]" ++ apos ++ ")",
              "(3, " ++ apos ++ "[\x7b\"x\": 50\x7d, \x7b\"x\": 60\x7d]" ++ apos ++ ")"]),
           ("root.children",
             ["(1, 1, 10)", "(1, 2, 20)", "(2, 3, 30)", "(2, 4, 40)", "(3, 5, 50)", "(3, 6, 60)"])]
          "root").getD []
        = (assocGet [("root", ([] : List String)), ("root.children", [])] "root").getD []
          ++ rowsFrom 0 s valss ∧
      assocGet [("root", (3:Int)), ("root.children", 6)] "root"
        = some (s + (threeDocs.length : Int)) :=
  c2_surrogate_ids_gap_free 1000 threeDocs [("root", []), ("root.children", [])]
    [("root", 0), ("root.children", 0)] famMappings "root" 0 0 "__" true
    [("root",
       ["(1, " ++ apos ++ "[\x7b\"x\": 10\x7d, \x7b\"x\": 20\x7d]" ++ apos ++ ")",
        "(2, " ++ apos ++ "[\x7b\"x\": 30\x7d, \x7b\"x\": 40\x7d]" ++ apos ++ ")",
        "(3, " ++ apos ++ "[\x7b\"x\": 50\x7d, \x7b\"x\": 60\x7d]" ++ apos ++ ")"]),
     ("root.children",
       ["(1, 1, 10)", "(1, 2, 20)", "(2, 3, 30)", "(2, 4, 40)", "(3, 5, 50)", "(3, 6, 60)"])]
    [("root", 3), ("root.children", 6)] rfl

end Normalizer
